import Mathlib

/-
Verification development for the monte-carlo-brain-scattering repository.

Shallow embedding of the two algorithmic modules:
  * src/monte_carlo_simulation.py : SimulationMonteCarlo
      (initialize_input, process_output, get_analysis_data)
  * src/statistic.py : StatisticalAnalyzer
      (calculate, _merge_intervals, _run_pearson_tests)

Conventions of the embedding:
  * Python/NumPy floating point numbers are modelled as real numbers.
    NumPy NaN values (which arise from the "np.nan" literal used for an
    undefined chi-square statistic) are modelled as the "none" value of
    an "Option Real"; the IEEE rule "NaN >= x is False" is modelled by
    the predicate Stat.nanGe below.
  * NumPy 2-D arrays are modelled as functions from natural-number
    indices to the reals; a shape (nr, na) array is only ever read at
    indices i < nr, a < na.  Python lists are Lean lists; the Python
    expression xs[k] on an in-range index is modelled with List.getD
    (all concrete inputs used in the theorems below are in range).
  * Attribute mutation on the SimpleNamespace output object (the
    in-place NumPy operators /= and *= of process_output) is modelled
    by explicit state passing: the record returned by processOutputCore
    is the post-call state of the very object (and hence of the very
    NumPy buffers) the caller passed in.
  * The source never raises: neither initialize_input nor
    process_output contains a raise statement or any validation.  The
    Except result type below hosts the error kinds named by the
    specification (InvalidStackError, DegenerateGridError) so that the
    spec's error-handling sentences can be stated; faithful to the
    source, both functions always return Except.ok.
  * External SciPy routines (t.ppf, chi2.ppf, norm.cdf, expon.cdf,
    chi2.cdf) are black-box third-party collaborators; they are passed in
    as an explicit parameter pack (structure Stat.SciPy), and the
    theorems below hold for every choice of that pack.
-/

noncomputable section

namespace MCBrain

open Real

/-- Error kinds named by the specification for the simulation module.
The source code defines no such exception classes and never raises. -/
inductive SimError where
  | invalidStack
  | degenerateGrid
deriving DecidableEq

/-- One entry of the layers list built by initialize_input (the dict with
keys n, mua, mus, g, z0, z1, cos_crit0). -/
structure Layer where
  n : ℝ
  mua : ℝ
  mus : ℝ
  g : ℝ
  z0 : ℝ
  z1 : ℝ
  cos_crit0 : ℝ

/-- The raw input dictionary consumed by initialize_input. -/
structure RawData where
  np : ℝ
  dz : ℝ
  dr : ℝ
  nz : ℕ
  nr : ℕ
  na : ℕ
  nl : ℕ
  n : List ℝ
  mua : List ℝ
  mus : List ℝ
  g : List ℝ
  d : List ℝ

/-- The SimpleNamespace produced by initialize_input. -/
structure InputNS where
  np : ℝ
  dz : ℝ
  dr : ℝ
  da : ℝ
  nz : ℕ
  nr : ℕ
  na : ℕ
  nl : ℕ
  n_above : ℝ
  n_below : ℝ
  layers : List Layer

/-- SimulationMonteCarlo.initialize_input (src/monte_carlo_simulation.py,
lines 28-64).  For ilayer in range(nl): z1 = sum(d[:ilayer+1]),
z0 = z1 - d[ilayer], n0 = n[ilayer], n1 = n[ilayer+1],
cos_crit0 = sqrt(1 - n0^2/n1^2) if n1 > n0 else 0.0, and the returned
namespace carries da = 0.5*pi/na, n_above = n[0], n_below = n[-1].
The function performs no validation whatsoever and has no raise
statement, so it always returns Except.ok. -/
def initialize_input (data : RawData) : Except SimError InputNS :=
  Except.ok
    { np := data.np
      dz := data.dz
      dr := data.dr
      da := 0.5 * Real.pi / data.na
      nz := data.nz
      nr := data.nr
      na := data.na
      nl := data.nl
      n_above := data.n.headD 0
      n_below := data.n.getLastD 0
      layers := (List.range data.nl).map (fun ilayer =>
        let z1 : ℝ := (data.d.take (ilayer + 1)).sum
        let z0 : ℝ := z1 - data.d.getD ilayer 0
        let n0 : ℝ := data.n.getD ilayer 0
        let n1 : ℝ := data.n.getD (ilayer + 1) 0
        { n := n1
          mua := data.mua.getD ilayer 0
          mus := data.mus.getD ilayer 0
          g := data.g.getD ilayer 0
          z0 := z0
          z1 := z1
          cos_crit0 := if n1 > n0 then Real.sqrt (1 - n0 ^ 2 / n1 ^ 2) else 0 }) }

/-- The raw Monte Carlo output object: the three count arrays produced by
the transport kernel, indexed 0-based with shapes (nr,na), (nr,nz),
(nr,na). -/
structure RawOutput where
  rd_ra : ℕ → ℕ → ℝ
  ab_rz : ℕ → ℕ → ℝ
  tt_ra : ℕ → ℕ → ℝ

/-- The output object after process_output: the (in-place scaled) 2-D
arrays, the 1-D profiles, and the scalar totals. -/
structure ScaledOutput where
  rd_ra : ℕ → ℕ → ℝ
  ab_rz : ℕ → ℕ → ℝ
  tt_ra : ℕ → ℕ → ℝ
  rd_r : ℕ → ℝ
  rd_a : ℕ → ℝ
  ab_r : ℕ → ℝ
  ab_z : ℕ → ℝ
  tt_r : ℕ → ℝ
  tt_a : ℕ → ℝ
  rd : ℝ
  ab : ℝ
  tt : ℝ

/-- scale1 = 4.0 * pi**2 * dr * sin(da/2) * dr (line 94). -/
def scale1 (inp : InputNS) : ℝ :=
  4 * Real.pi ^ 2 * inp.dr * Real.sin (inp.da / 2) * inp.dr

/-- The denominator of the 2-D scale factor at 0-based indices (i, a):
with 1-based bin positions ir = i+1, ia = a+1 this is
(ir - 0.5) * sin(2.0 * (ia - 0.5) * da) * scale1 (line 99). -/
def scale2Denom (inp : InputNS) (i a : ℕ) : ℝ :=
  (((i : ℝ) + 1) - 0.5) * Real.sin (2 * (((a : ℝ) + 1) - 0.5) * inp.da) * scale1 inp

/-- scale2_ra = 1.0 / scale2Denom (line 99). -/
def scale2_ra (inp : InputNS) (i a : ℕ) : ℝ :=
  1 / scale2Denom inp i a

/-- scale1_r = 2.0 * pi * dr**2 (line 104). -/
def scale1_r (inp : InputNS) : ℝ :=
  2 * Real.pi * inp.dr ^ 2

/-- scale1_a = 4.0 * pi * sin(da/2) (line 110). -/
def scale1_a (inp : InputNS) : ℝ :=
  4 * Real.pi * Real.sin (inp.da / 2)

/-- SimulationMonteCarlo.process_output (src/monte_carlo_simulation.py,
lines 71-119), written as a state transformer.  The Python method
mutates its output argument: /= and *= are in-place NumPy operations on
the caller's buffers, and the attribute assignments bind the reduced
profiles and totals.  Each field below is the final value held by the
corresponding attribute (equivalently, by the caller's buffer) when the
method returns; the sequential order of the source is reflected in how
the expressions compose (division by np first, then the reductions and
totals taken from the divided arrays, then the geometric factors
applied on top). -/
def processOutputCore (inp : InputNS) (o : RawOutput) : ScaledOutput :=
  { rd_ra := fun i a => o.rd_ra i a / inp.np * scale2_ra inp i a
    tt_ra := fun i a => o.tt_ra i a / inp.np * scale2_ra inp i a
    ab_rz := fun i z =>
      o.ab_rz i z / inp.np * (1 / (((i : ℝ) + 1) * scale1_a inp * inp.dz))
    rd_r := fun i =>
      (∑ a ∈ Finset.range inp.na, o.rd_ra i a / inp.np) *
        (1 / ((((i : ℝ) + 1) - 0.5) * scale1_r inp))
    tt_r := fun i =>
      (∑ a ∈ Finset.range inp.na, o.tt_ra i a / inp.np) *
        (1 / ((((i : ℝ) + 1) - 0.5) * scale1_r inp))
    rd_a := fun a =>
      (∑ i ∈ Finset.range inp.nr, o.rd_ra i a / inp.np) *
        (1 / (Real.sin (((a : ℝ) + 1) * inp.da) * scale1_a inp))
    tt_a := fun a =>
      (∑ i ∈ Finset.range inp.nr, o.tt_ra i a / inp.np) *
        (1 / (Real.sin (((a : ℝ) + 1) * inp.da) * scale1_a inp))
    ab_r := fun i => ∑ z ∈ Finset.range inp.nz, o.ab_rz i z / inp.np
    ab_z := fun z =>
      (∑ i ∈ Finset.range inp.nr, o.ab_rz i z / inp.np) * (1 / inp.dz)
    rd := ∑ i ∈ Finset.range inp.nr, ∑ a ∈ Finset.range inp.na, o.rd_ra i a / inp.np
    ab := ∑ i ∈ Finset.range inp.nr, ∑ z ∈ Finset.range inp.nz, o.ab_rz i z / inp.np
    tt := ∑ i ∈ Finset.range inp.nr, ∑ a ∈ Finset.range inp.na, o.tt_ra i a / inp.np }

/-- process_output as seen by a caller expecting the specification's
error channel.  The source contains no raise statement (NumPy turns a
zero scale denominator into a warning plus non-finite entries, not an
exception), so the result is always Except.ok. -/
def process_output (inp : InputNS) (o : RawOutput) : Except SimError ScaledOutput :=
  Except.ok (processOutputCore inp o)

/-
Model of scipy.interpolate.PchipInterpolator as used by
SimulationMonteCarlo.get_analysis_data (lines 131-138):
  interp_func = PchipInterpolator(rindex, rd_r, extrapolate=False)
  p_reflectance = nan_to_num(interp_func(i_distances), nan=0.0)
PchipInterpolator is a piecewise cubic Hermite interpolant through the
knots (x_k, y_k) whose knot derivatives d_k follow the Fritsch-Carlson
monotonicity rule; with extrapolate=False a query outside
[x_0, x_last] evaluates to NaN (modelled as Option.none), which
nan_to_num then maps to the sentinel 0.
-/

/-- One interpolation knot: abscissa, ordinate, and the derivative the
Fritsch-Carlson rule assigns there. -/
structure Knot where
  x : ℝ
  y : ℝ
  d : ℝ

/-- The slope (y[k+1] - y[k]) / (x[k+1] - x[k]) of segment k. -/
def fcSlope (xs ys : List ℝ) (k : ℕ) : ℝ :=
  (ys.getD (k + 1) 0 - ys.getD k 0) / (xs.getD (k + 1) 0 - xs.getD k 0)

/-- The width x[k+1] - x[k] of segment k. -/
def fcH (xs : List ℝ) (k : ℕ) : ℝ :=
  xs.getD (k + 1) 0 - xs.getD k 0

/-- The one-sided three-point endpoint derivative with the two sign
clamps of scipy's PchipInterpolator._edge_case: the shape-preserving
estimate is zeroed when its sign disagrees with the boundary slope m0,
and clamped to 3*m0 when the two boundary slopes disagree in sign and
the estimate overshoots. -/
def fcEdgeCase (h0 h1 m0 m1 : ℝ) : ℝ :=
  let d := ((2 * h0 + h1) * m0 - h0 * m1) / (h0 + h1)
  if d * m0 ≤ 0 then 0
  else if m0 * m1 ≤ 0 ∧ 3 * |m0| < |d| then 3 * m0
  else d

/-- The Fritsch-Carlson knot derivative at index k, following scipy's
PchipInterpolator._find_derivatives: a weighted harmonic mean of the
two adjacent slopes at interior knots (zero when they differ in sign or
one vanishes), the edge-case formula at the two endpoints, and the
single segment slope when only two points are given. -/
def fcDeriv (xs ys : List ℝ) (k : ℕ) : ℝ :=
  let n := xs.length
  if n ≤ 1 then 0
  else if n = 2 then fcSlope xs ys 0
  else if k = 0 then fcEdgeCase (fcH xs 0) (fcH xs 1) (fcSlope xs ys 0) (fcSlope xs ys 1)
  else if k = n - 1 then
    fcEdgeCase (fcH xs (n - 2)) (fcH xs (n - 3)) (fcSlope xs ys (n - 2)) (fcSlope xs ys (n - 3))
  else
    let mkm := fcSlope xs ys (k - 1)
    let mk := fcSlope xs ys k
    if mkm * mk ≤ 0 then 0
    else
      let hkm := fcH xs (k - 1)
      let hk := fcH xs k
      let w1 := 2 * hk + hkm
      let w2 := hk + 2 * hkm
      (w1 + w2) / (w1 / mkm + w2 / mk)

/-- Evaluation of the cubic Hermite polynomial on the segment
[x0, x1] with endpoint values y0, y1 and endpoint derivatives d0, d1,
in the standard Hermite basis h00, h10, h01, h11 of the local
parameter t = (q - x0) / (x1 - x0). -/
def hermiteSeg (x0 y0 d0 x1 y1 d1 q : ℝ) : ℝ :=
  let h := x1 - x0
  let t := (q - x0) / h
  y0 * (2 * t ^ 3 - 3 * t ^ 2 + 1) + h * d0 * (t ^ 3 - 2 * t ^ 2 + t) +
    y1 * (-2 * t ^ 3 + 3 * t ^ 2) + h * d1 * (t ^ 3 - t ^ 2)

/-- Piecewise evaluation over the knot list: a query q (already known to
lie in the domain) is evaluated on the first segment whose right end is
at or beyond q. -/
def evalSegments : List Knot → ℝ → ℝ
  | [], _ => 0
  | [k], _ => k.y
  | k0 :: k1 :: rest, q =>
    if q ≤ k1.x then hermiteSeg k0.x k0.y k0.d k1.x k1.y k1.d q
    else evalSegments (k1 :: rest) q

/-- PchipInterpolator(..., extrapolate=False) applied to a single query:
queries strictly outside [x_0, x_last] give NaN (none), in-domain
queries give the Hermite value. -/
def pchipNoExtrap (ks : List Knot) (q : ℝ) : Option ℝ :=
  match ks with
  | [] => none
  | k :: t =>
    if q < k.x ∨ ((k :: t).getLastD k).x < q then none
    else some (evalSegments (k :: t) q)

/-- The radial bin midpoints rindex = arange(1, nr+1)*dr - dr/2 of
get_analysis_data (line 133), 0-based position i carrying 1-based bin
index i+1. -/
def rindexList (dr : ℝ) (nr : ℕ) : List ℝ :=
  (List.range nr).map (fun i => ((i : ℝ) + 1) * dr - dr / 2)

/-- The knot list PchipInterpolator is built from in get_analysis_data:
abscissas rindex, ordinates rd_r, Fritsch-Carlson derivatives. -/
def analysisKnots (dr : ℝ) (nr : ℕ) (ys : ℕ → ℝ) : List Knot :=
  (List.range nr).map (fun (i : ℕ) =>
    { x := ((i : ℝ) + 1) * dr - dr / 2
      y := ys i
      d := fcDeriv (rindexList dr nr) ((List.range nr).map ys) i })

/-- One sampled value of get_analysis_data: the interpolant at query
distance q with NaN replaced by the sentinel 0
(np.nan_to_num(interp_func(q), nan=0.0), line 138). -/
def sampleReflectance (dr : ℝ) (nr : ℕ) (ys : ℕ → ℝ) (q : ℝ) : ℝ :=
  (pchipNoExtrap (analysisKnots dr nr ys) q).getD 0

/-- The query distances i_distances = arange(start_dist, end_dist + step,
step) of get_analysis_data (line 135), with NumPy arange semantics:
start + k*step for 0 <= k < ceil((stop - start)/step). -/
def analysisDistances (start_dist end_dist step : ℝ) : List ℝ :=
  (List.range (⌈(end_dist + step - start_dist) / step⌉.toNat)).map
    (fun k => start_dist + (k : ℝ) * step)

/-- The P_reflectance column of get_analysis_data: the interpolant
sampled at every query distance (line 138). -/
def pReflectance (dr : ℝ) (nr : ℕ) (ys : ℕ → ℝ)
    (start_dist end_dist step : ℝ) : List ℝ :=
  (analysisDistances start_dist end_dist step).map (sampleReflectance dr nr ys)

end MCBrain

namespace Stat

/-- The external SciPy routines used by StatisticalAnalyzer, passed as a
black-box parameter pack: stats.t.ppf(q, df), stats.chi2.ppf(q, df),
stats.norm.cdf(x, mean, std), stats.expon.cdf(x, scale),
stats.chi2.cdf(x, df).  Every theorem below holds for every choice of
these functions. -/
structure SciPy where
  tPpf : ℝ → ℝ → ℝ
  chi2Ppf : ℝ → ℝ → ℝ
  normCdf : ℝ → ℝ → ℝ → ℝ
  exponCdf : ℝ → ℝ → ℝ
  chi2Cdf : ℝ → ℝ → ℝ

/-- np.min over a list (Python raises on an empty array; the default 0
is never reached by the theorems below, which all concern nonempty
data or quantities whose guard already failed). -/
def listMin (l : List ℝ) : ℝ := l.foldl min (l.headD 0)

/-- np.max over a list. -/
def listMax (l : List ℝ) : ℝ := l.foldl max (l.headD 0)

/-- The Sturges-rule interval step of StatisticalAnalyzer.__init__
(src/statistic.py, line 24): h = (x_max - x_min) / (1 + 3.322*log(N)). -/
def sturgesH (data : List ℝ) : ℝ :=
  (listMax data - listMin data) / (1 + 3.322 * Real.log (data.length : ℝ))

/-- np.arange(start, stop, step) for positive step: the values
start + k*step for 0 <= k < ceil((stop - start)/step). -/
def arange (start stop step : ℝ) : List ℝ :=
  (List.range (⌈(stop - start) / step⌉.toNat)).map
    (fun (k : ℕ) => start + (k : ℝ) * step)

/-- The histogram bin edges of calculate (line 31):
bins = np.arange(x_min - h/2, x_max + h*1.5, h). -/
def binEdges (data : List ℝ) : List ℝ :=
  arange (listMin data - sturgesH data / 2) (listMax data + sturgesH data * 1.5)
    (sturgesH data)

/-- The number of data points in one histogram bin [lo, hi), with the
right edge included for the last bin — np.histogram semantics. -/
def binCount (data : List ℝ) (lo hi : ℝ) (lastBin : Bool) : ℝ :=
  ((data.filter (fun v =>
    decide (lo ≤ v) && (if lastBin then decide (v ≤ hi) else decide (v < hi)))).length : ℝ)

/-- The observed frequencies ni_values of np.histogram(values, bins)
(line 32). -/
def niValues (data : List ℝ) : List ℝ :=
  (List.range ((binEdges data).length - 1)).map (fun i =>
    binCount data ((binEdges data).getD i 0) ((binEdges data).getD (i + 1) 0)
      (decide (i + 2 = (binEdges data).length)))

/-- The interval midpoints xi_values = (edges[:-1] + edges[1:]) / 2
(line 33). -/
def xiValues (data : List ℝ) : List ℝ :=
  List.zipWith (fun a b => (a + b) / 2) (binEdges data).dropLast (binEdges data).tail

/-- The histogram mean m = sum(xi*ni)/N (line 36). -/
def meanM (data : List ℝ) : ℝ :=
  (List.zipWith (fun x n => x * n) (xiValues data) (niValues data)).sum / (data.length : ℝ)

/-- The histogram variance d = sum((xi - m)^2 * ni)/(N - 1) (line 37). -/
def varD (data : List ℝ) : ℝ :=
  (List.zipWith (fun x n => (x - meanM data) ^ 2 * n) (xiValues data) (niValues data)).sum /
    ((data.length : ℝ) - 1)

/-- The standard deviation o = sqrt(d) (line 38). -/
def stdO (data : List ℝ) : ℝ := Real.sqrt (varD data)

/-- The confidence-interval margin for the mean (lines 42-43):
t_crit * (o / sqrt(N)). -/
def ciMarginM (sp : SciPy) (data : List ℝ) (alpha : ℝ) : ℝ :=
  sp.tPpf (1 - alpha / 2) ((data.length : ℝ) - 1) *
    (stdO data / Real.sqrt (data.length : ℝ))

/-- The mean confidence interval m_ci (line 44). -/
def mCi (sp : SciPy) (data : List ℝ) (alpha : ℝ) : ℝ × ℝ :=
  (meanM data - ciMarginM sp data alpha, meanM data + ciMarginM sp data alpha)

/-- The variance confidence interval d_ci (lines 46-48). -/
def dCi (sp : SciPy) (data : List ℝ) (alpha : ℝ) : ℝ × ℝ :=
  (((data.length : ℝ) - 1) * varD data / sp.chi2Ppf (1 - alpha / 2) ((data.length : ℝ) - 1),
   ((data.length : ℝ) - 1) * varD data / sp.chi2Ppf (alpha / 2) ((data.length : ℝ) - 1))

/-- One iteration of the accumulation loop in _merge_intervals
(lines 56-61): state (obs_m, exp_m, c_obs, c_exp); the running sums
grow by the next pair, and when the running expected count reaches 5
the merged bin is appended and the sums reset. -/
def mergeStep (s : List ℝ × List ℝ × ℝ × ℝ) (p : ℝ × ℝ) : List ℝ × List ℝ × ℝ × ℝ :=
  let co := s.2.2.1 + p.1
  let ce := s.2.2.2 + p.2
  if 5 ≤ ce then (s.1 ++ [co], s.2.1 ++ [ce], 0, 0) else (s.1, s.2.1, co, ce)

/-- Python's xs[-1] += v on a list: add v to the last element. -/
def addLast : List ℝ → ℝ → List ℝ
  | [], _ => []
  | [x], v => [x + v]
  | x :: y :: t, v => x :: addLast (y :: t) v

/-- StatisticalAnalyzer._merge_intervals (src/statistic.py, lines
53-64): fold the zipped (observed, expected) pairs through mergeStep,
then fold a nonzero trailing remainder into the last completed merged
bin, provided at least one completed bin exists. -/
def merge_intervals (ni_obs ni_exp : List ℝ) : List ℝ × List ℝ :=
  let s := (ni_obs.zip ni_exp).foldl mergeStep ([], [], 0, 0)
  if 0 < s.2.2.2 ∧ s.2.1 ≠ [] then (addLast s.1 s.2.2.1, addLast s.2.1 s.2.2.2)
  else (s.1, s.2.1)

/-- The IEEE comparison p >= alpha used on line 73/82, where p may be
NaN (modelled as none): any comparison with NaN is false. -/
def nanGe (p : Option ℝ) (alpha : ℝ) : Bool :=
  match p with
  | none => false
  | some v => decide (alpha ≤ v)

/-- The Normal bin probabilities p_i = norm.cdf(edges[1:], m, o) -
norm.cdf(edges[:-1], m, o) (line 68). -/
def probsN (sp : SciPy) (data : List ℝ) : List ℝ :=
  List.zipWith
    (fun lo hi => sp.normCdf hi (meanM data) (stdO data) - sp.normCdf lo (meanM data) (stdO data))
    (binEdges data).dropLast (binEdges data).tail

/-- The merged (observed, expected) bins for the Normal test (line 69). -/
def mergedN (sp : SciPy) (data : List ℝ) : List ℝ × List ℝ :=
  merge_intervals (niValues data) ((probsN sp data).map (fun p => (data.length : ℝ) * p))

/-- df_n = max(1, len(exp) - 3) (line 70); Lean's truncated natural
subtraction and Python's max over a possibly negative int agree. -/
def dfN (sp : SciPy) (data : List ℝ) : ℕ :=
  max 1 ((mergedN sp data).2.length - 3)

/-- chi2_n = sum((obs-exp)^2/exp) if len(exp) >= 3 else np.nan
(line 71); the NaN branch is the none value. -/
def chi2N (sp : SciPy) (data : List ℝ) : Option ℝ :=
  if 3 ≤ (mergedN sp data).2.length then
    some ((List.zipWith (fun o e => (o - e) ^ 2 / e) (mergedN sp data).1 (mergedN sp data).2).sum)
  else none

/-- p_n = 1 - chi2.cdf(chi2_n, df_n) (line 72); SciPy propagates NaN
through the cdf, so a none statistic yields a none p-value. -/
def pN (sp : SciPy) (data : List ℝ) : Option ℝ :=
  (chi2N sp data).map (fun s => 1 - sp.chi2Cdf s ((dfN sp data : ℕ) : ℝ))

/-- res_n = "Accepted" if p_n >= alpha else "Rejected" (line 73). -/
def resN (sp : SciPy) (data : List ℝ) (alpha : ℝ) : String :=
  if nanGe (pN sp data) alpha then "Accepted" else "Rejected"

/-- lambd = 1 / m (line 76). -/
def lambd (data : List ℝ) : ℝ := 1 / meanM data

/-- The Exponential bin probabilities p_i_e = expon.cdf(edges[1:],
scale=1/lambd) - expon.cdf(edges[:-1], scale=1/lambd) (line 77). -/
def probsE (sp : SciPy) (data : List ℝ) : List ℝ :=
  List.zipWith
    (fun lo hi => sp.exponCdf hi (1 / lambd data) - sp.exponCdf lo (1 / lambd data))
    (binEdges data).dropLast (binEdges data).tail

/-- The merged (observed, expected) bins for the Exponential test
(line 78). -/
def mergedE (sp : SciPy) (data : List ℝ) : List ℝ × List ℝ :=
  merge_intervals (niValues data) ((probsE sp data).map (fun p => (data.length : ℝ) * p))

/-- df_e = max(1, len(exp_e) - 2) (line 79). -/
def dfE (sp : SciPy) (data : List ℝ) : ℕ :=
  max 1 ((mergedE sp data).2.length - 2)

/-- chi2_e = sum((obs_e-exp_e)^2/exp_e) if len(exp_e) >= 2 else np.nan
(line 80). -/
def chi2E (sp : SciPy) (data : List ℝ) : Option ℝ :=
  if 2 ≤ (mergedE sp data).2.length then
    some ((List.zipWith (fun o e => (o - e) ^ 2 / e) (mergedE sp data).1 (mergedE sp data).2).sum)
  else none

/-- p_e = 1 - chi2.cdf(chi2_e, df_e) (line 81). -/
def pE (sp : SciPy) (data : List ℝ) : Option ℝ :=
  (chi2E sp data).map (fun s => 1 - sp.chi2Cdf s ((dfE sp data : ℕ) : ℝ))

/-- res_e = "Accepted" if p_e >= alpha else "Rejected" (line 82). -/
def resE (sp : SciPy) (data : List ℝ) (alpha : ℝ) : String :=
  if nanGe (pE sp data) alpha then "Accepted" else "Rejected"

/-- The attributes set by a completed run of calculate plus
_run_pearson_tests. -/
structure AnalysisResult where
  edges : List ℝ
  ni : List ℝ
  xi : List ℝ
  m : ℝ
  d : ℝ
  o : ℝ
  m_ci : ℝ × ℝ
  d_ci : ℝ × ℝ
  chi2_n : Option ℝ
  p_n : Option ℝ
  res_n : String
  chi2_e : Option ℝ
  p_e : Option ℝ
  res_e : String

/-- The attribute values set by a completed (non-degenerate) run of
calculate plus _run_pearson_tests, collected into one record. -/
def analysisOf (sp : SciPy) (data : List ℝ) : AnalysisResult :=
  { edges := binEdges data
    ni := niValues data
    xi := xiValues data
    m := meanM data
    d := varD data
    o := stdO data
    m_ci := mCi sp data 0.05
    d_ci := dCi sp data 0.05
    chi2_n := chi2N sp data
    p_n := pN sp data
    res_n := resN sp data 0.05
    chi2_e := chi2E sp data
    p_e := pE sp data
    res_e := resE sp data 0.05 }

/-- StatisticalAnalyzer.calculate (src/statistic.py, lines 26-51): when
the Sturges step h is nonpositive the method returns immediately (the
plain Python "return", i.e. None) and produces no statistics at all —
the outcome the specification names DegenerateSampleError — modelled as
the none result; otherwise it computes the histogram, the descriptive
statistics, the confidence intervals at alpha = 0.05, and both Pearson
tests. -/
def calculate (sp : SciPy) (data : List ℝ) : Option AnalysisResult :=
  if sturgesH data ≤ 0 then none
  else some (analysisOf sp data)

end Stat

namespace Cases

/-- The grid of the specification's unit-reflectance example scenario:
nr = 20, na = 30, dr = 0.2 (dz, nz from the repository's default
configuration), with the photon count left as a parameter. -/
def c1Input (np : ℝ) : MCBrain.InputNS :=
  { np := np, dz := 0.2, dr := 0.2, da := 0.5 * Real.pi / 30,
    nz := 10, nr := 20, na := 30, nl := 4,
    n_above := 1, n_below := 1, layers := [] }

/-- Raw counts equal to the photon count at bin (1,1) (0-based (0,0))
and zero elsewhere. -/
def c1Raw (np : ℝ) : MCBrain.RawOutput :=
  { rd_ra := fun i a => if i = 0 ∧ a = 0 then np else 0
    ab_rz := fun _ _ => 0
    tt_ra := fun _ _ => 0 }

/-- A malformed stack input: a single layer of thickness 0 (violating
the spec's thickness > 0 requirement) with otherwise consistent
arrays. -/
def c2Data : MCBrain.RawData :=
  { np := 1, dz := 1, dr := 1, nz := 1, nr := 1, na := 1, nl := 1,
    n := [1, 1.4, 1], mua := [0.1], mus := [1], g := [0.9], d := [0] }

/-- A degenerate grid namespace with da = 0, making every angular scale
denominator vanish. -/
def c3Input : MCBrain.InputNS :=
  { np := 1, dz := 1, dr := 1, da := 0, nz := 1, nr := 1, na := 1, nl := 1,
    n_above := 1, n_below := 1, layers := [] }

/-- All-ones raw counts on the 1x1 grids. -/
def onesRaw : MCBrain.RawOutput :=
  { rd_ra := fun _ _ => 1, ab_rz := fun _ _ => 1, tt_ra := fun _ _ => 1 }

/-- A 1x1x1 grid with unit steps, unit photon count and da = pi/2 (the
value initialize_input assigns for na = 1), on which the geometric
factors evaluate through sin(pi/2) and sin(pi/4). -/
def c4Input : MCBrain.InputNS :=
  { np := 1, dz := 1, dr := 1, da := Real.pi / 2, nz := 1, nr := 1, na := 1,
    nl := 1, n_above := 1, n_below := 1, layers := [] }

/-- A SciPy parameter pack returning 0 everywhere; the claims hold for
every pack, and the witnesses instantiate with this one. -/
def spZero : Stat.SciPy :=
  { tPpf := fun _ _ => 0, chi2Ppf := fun _ _ => 0, normCdf := fun _ _ _ => 0,
    exponCdf := fun _ _ => 0, chi2Cdf := fun _ _ => 0 }

end Cases

open MCBrain Stat Cases

/-- C2 counterexample: on the concrete input c2Data the thickness array
contains the nonpositive entry 0, yet initialize_input does not fail
with InvalidStackError — it performs no validation at all. -/
theorem c2_invalid_stack_not_raised :
    (0 : ℝ) ∈ c2Data.d ∧
      initialize_input c2Data ≠ Except.error SimError.invalidStack := by
  constructor
  · simp [c2Data]
  · simp [initialize_input]

/-- C2 (amended): building the optical stack never fails — the source
performs no validation, raises no InvalidStackError for any input
(malformed or not), and always returns the ordered layer sequence, one
record per declared layer. -/
theorem c2_initialize_never_fails (data : RawData) :
    ∃ ns, initialize_input data = Except.ok ns ∧ ns.layers.length = data.nl := by
  exact ⟨_, rfl, by simp [initialize_input]⟩

/-- C3 counterexample: on the concrete namespace c3Input (da = 0) the
2-D geometric scale denominator at bin (1,1) is exactly zero, yet
process_output does not fail with DegenerateGridError — it completes
normally. -/
theorem c3_degenerate_grid_not_raised :
    scale2Denom c3Input 0 0 = 0 ∧
      process_output c3Input onesRaw ≠ Except.error SimError.degenerateGrid := by
  constructor
  · simp [scale2Denom, c3Input]
  · simp [process_output]

/-- C3 (amended): normalization never raises — process_output returns a
scaled output for every input, including inputs whose geometric scale
denominators are zero (NumPy emits non-finite entries there, not an
exception). -/
theorem c3_normalize_never_fails (inp : InputNS) (o : RawOutput) :
    ∃ out, process_output inp o = Except.ok out :=
  ⟨_, rfl⟩

/-- C8: whenever the Sturges step h is nonpositive (e.g. a single
observation or all observations identical), calculate skips the whole
analysis and yields the explicit not-computable result (the outcome the
specification names DegenerateSampleError): no histogram, descriptive
statistics, confidence intervals or fit results are produced. -/
theorem c8_degenerate_sample_skips (sp : SciPy) (data : List ℝ)
    (h : sturgesH data ≤ 0) : calculate sp data = none := by
  simp [calculate, if_pos h]

/-- C8 witness: two identical observations give h = 0, and the analysis
is skipped. -/
theorem c8_degenerate_sample_skips_witness :
    sturgesH [(1 : ℝ), 1] ≤ 0 ∧ calculate spZero [(1 : ℝ), 1] = none := by
  have h : sturgesH [(1 : ℝ), 1] ≤ 0 := by
    simp [sturgesH, listMin, listMax, List.foldl]
  exact ⟨h, c8_degenerate_sample_skips spZero [(1 : ℝ), 1] h⟩

/-- The Normal-fit decision is always one of the two verdict strings. -/
theorem resN_cases (sp : SciPy) (data : List ℝ) (alpha : ℝ) :
    resN sp data alpha = "Accepted" ∨ resN sp data alpha = "Rejected" := by
  unfold resN
  by_cases hb : nanGe (pN sp data) alpha
  · rw [if_pos hb]; exact Or.inl rfl
  · rw [if_neg hb]; exact Or.inr rfl

/-- The Normal-fit decision is Accepted exactly when the (possibly NaN)
p-value compares at or above alpha under IEEE semantics. -/
theorem resN_accepted_iff (sp : SciPy) (data : List ℝ) (alpha : ℝ) :
    resN sp data alpha = "Accepted" ↔ nanGe (pN sp data) alpha = true := by
  unfold resN
  by_cases hb : nanGe (pN sp data) alpha
  · rw [if_pos hb]; exact ⟨fun _ => hb, fun _ => rfl⟩
  · rw [if_neg hb]
    exact ⟨fun hc => absurd hc (by decide), fun hc => absurd hc hb⟩

/-- The Exponential-fit decision is always one of the two verdict
strings. -/
theorem resE_cases (sp : SciPy) (data : List ℝ) (alpha : ℝ) :
    resE sp data alpha = "Accepted" ∨ resE sp data alpha = "Rejected" := by
  unfold resE
  by_cases hb : nanGe (pE sp data) alpha
  · rw [if_pos hb]; exact Or.inl rfl
  · rw [if_neg hb]; exact Or.inr rfl

/-- The Exponential-fit decision is Accepted exactly when the (possibly
NaN) p-value compares at or above alpha under IEEE semantics. -/
theorem resE_accepted_iff (sp : SciPy) (data : List ℝ) (alpha : ℝ) :
    resE sp data alpha = "Accepted" ↔ nanGe (pE sp data) alpha = true := by
  unfold resE
  by_cases hb : nanGe (pE sp data) alpha
  · rw [if_pos hb]; exact ⟨fun _ => hb, fun _ => rfl⟩
  · rw [if_neg hb]
    exact ⟨fun hc => absurd hc (by decide), fun hc => absurd hc hb⟩

/-- C9: for every SciPy pack and every non-degenerate observation
sequence (h > 0), calculate completes and both goodness-of-fit tests
yield a decision that is exactly "Accepted" when the right-tail p-value
compares at or above alpha = 0.05 and "Rejected" otherwise — in
particular the decision is one of the two verdicts even when the
chi-square statistic is NaN (none), in which case the IEEE comparison
fails and the verdict is "Rejected". -/
theorem c9_pearson_decisions (sp : SciPy) (data : List ℝ)
    (h : 0 < sturgesH data) :
    ∃ r, calculate sp data = some r ∧
      (r.res_n = "Accepted" ∨ r.res_n = "Rejected") ∧
      (r.res_n = "Accepted" ↔ nanGe r.p_n 0.05 = true) ∧
      (r.res_e = "Accepted" ∨ r.res_e = "Rejected") ∧
      (r.res_e = "Accepted" ↔ nanGe r.p_e 0.05 = true) := by
  refine ⟨analysisOf sp data, ?_, ?_, ?_, ?_, ?_⟩
  · unfold calculate
    rw [if_neg (not_le.mpr h)]
  · exact resN_cases sp data 0.05
  · exact resN_accepted_iff sp data 0.05
  · exact resE_cases sp data 0.05
  · exact resE_accepted_iff sp data 0.05

/-- C9 witness: the two-point sample [0, 1] has a positive Sturges step,
and the Pearson decisions at the zero SciPy pack are well-formed. -/
theorem c9_pearson_decisions_witness :
    0 < sturgesH [(0 : ℝ), 1] ∧
      ∃ r, calculate spZero [(0 : ℝ), 1] = some r ∧
        (r.res_n = "Accepted" ∨ r.res_n = "Rejected") ∧
        (r.res_n = "Accepted" ↔ nanGe r.p_n 0.05 = true) ∧
        (r.res_e = "Accepted" ∨ r.res_e = "Rejected") ∧
        (r.res_e = "Accepted" ↔ nanGe r.p_e 0.05 = true) := by
  have hl : (0 : ℝ) < Real.log 2 := Real.log_pos (by norm_num)
  have hpos : 0 < sturgesH [(0 : ℝ), 1] := by
    have hmax : listMax [(0 : ℝ), 1] = 1 := by
      simp [listMax, List.foldl]
    have hmin : listMin [(0 : ℝ), 1] = 0 := by
      simp [listMin, List.foldl]
    unfold sturgesH
    rw [hmax, hmin]
    have hlen : (([(0 : ℝ), 1].length : ℝ)) = 2 := by norm_num
    rw [hlen]
    have hden : (0 : ℝ) < 1 + 3.322 * Real.log 2 := by nlinarith
    positivity
  exact ⟨hpos, c9_pearson_decisions spZero [(0 : ℝ), 1] hpos⟩

/-- A merge iteration preserves "every completed merged expected count
is at least 5": a bin is only emitted when its running expected count
has reached 5. -/
theorem mergeStep_exp_ge_five (s : List ℝ × List ℝ × ℝ × ℝ) (p : ℝ × ℝ)
    (hs : ∀ x ∈ s.2.1, (5 : ℝ) ≤ x) :
    ∀ x ∈ (mergeStep s p).2.1, (5 : ℝ) ≤ x := by
  unfold mergeStep
  dsimp only
  split_ifs with hc
  · intro x hx
    rcases List.mem_append.mp hx with hx | hx
    · exact hs x hx
    · rw [List.mem_singleton.mp hx]; exact hc
  · exact hs

/-- The accumulation loop of _merge_intervals preserves the invariant
over any pair sequence. -/
theorem foldl_merge_exp_ge_five (ps : List (ℝ × ℝ)) :
    ∀ (s : List ℝ × List ℝ × ℝ × ℝ), (∀ x ∈ s.2.1, (5 : ℝ) ≤ x) →
      ∀ x ∈ (ps.foldl mergeStep s).2.1, (5 : ℝ) ≤ x := by
  induction ps with
  | nil => intro s hs; simpa using hs
  | cons p t ih =>
    intro s hs
    rw [List.foldl_cons]
    exact ih _ (mergeStep_exp_ge_five s p hs)

/-- Adding a nonnegative remainder to the last element of a list of
values at least 5 keeps every element at least 5. -/
theorem addLast_exp_ge_five (l : List ℝ) :
    ∀ (v : ℝ), (∀ x ∈ l, (5 : ℝ) ≤ x) → 0 ≤ v →
      ∀ x ∈ addLast l v, (5 : ℝ) ≤ x := by
  induction l with
  | nil => intro v _ _ x hx; simp [addLast] at hx
  | cons a t ih =>
    intro v hl hv x hx
    cases t with
    | nil =>
      rw [show addLast [a] v = [a + v] from rfl] at hx
      rw [List.mem_singleton.mp hx]
      have := hl a (by simp)
      linarith
    | cons b t2 =>
      rw [show addLast (a :: b :: t2) v = a :: addLast (b :: t2) v from rfl] at hx
      rcases List.mem_cons.mp hx with hx | hx
      · rw [hx]; exact hl a (by simp)
      · exact ih v (fun y hy => hl y (List.mem_cons_of_mem a hy)) hv x hx

/-- C7: for every sequence of observed and expected bin counts, every
merged bin produced by _merge_intervals has expected count at least 5:
a bin is emitted only once its running expected count reaches 5, and
the trailing remainder (folded only when positive) can only increase
the last completed bin. -/
theorem c7_merged_expected_ge_five (ni_obs ni_exp : List ℝ) :
    ∀ e ∈ (merge_intervals ni_obs ni_exp).2, (5 : ℝ) ≤ e := by
  unfold merge_intervals
  dsimp only
  split_ifs with hc
  · exact addLast_exp_ge_five _ _
      (foldl_merge_exp_ge_five _ _ (by simp)) (le_of_lt hc.1)
  · exact foldl_merge_exp_ge_five _ _ (by simp)

/-- C7 witness: merging the single pair (0, 7) emits the merged expected
count 7, which is at least 5. -/
theorem c7_merged_expected_ge_five_witness :
    (7 : ℝ) ∈ (merge_intervals [(0 : ℝ)] [(7 : ℝ)]).2 ∧ (5 : ℝ) ≤ 7 := by
  have hm : (merge_intervals [(0 : ℝ)] [(7 : ℝ)]).2 = [7] := by
    norm_num [merge_intervals, mergeStep, List.zip]
  have hmem : (7 : ℝ) ∈ (merge_intervals [(0 : ℝ)] [(7 : ℝ)]).2 := by
    rw [hm]; simp
  exact ⟨hmem, c7_merged_expected_ge_five [(0 : ℝ)] [(7 : ℝ)] 7 hmem⟩

/-- If no running expected count ever reaches 5, the accumulation loop
never emits a bin: starting from empty lists it only accumulates the
carries. -/
theorem foldl_merge_no_emit (ps : List (ℝ × ℝ)) :
    ∀ (co ce : ℝ), (∀ k : ℕ, ce + (((ps.take k).map Prod.snd).sum) < 5) →
      ps.foldl mergeStep ([], [], co, ce) =
        ([], [], co + (ps.map Prod.fst).sum, ce + (ps.map Prod.snd).sum) := by
  induction ps with
  | nil => intro co ce _; simp
  | cons p t ih =>
    intro co ce h
    have h1 : ce + p.2 < 5 := by simpa using h 1
    have hstep : mergeStep ([], [], co, ce) p = ([], [], co + p.1, ce + p.2) := by
      unfold mergeStep
      rw [if_neg (not_le.mpr h1)]
    rw [List.foldl_cons, hstep,
      ih (co + p.1) (ce + p.2) (fun k => by
        have := h (k + 1)
        rw [List.take_succ_cons, List.map_cons, List.sum_cons] at this
        linarith)]
    simp [Prod.ext_iff]
    constructor <;> ring

/-- C10: when no prefix of the expected counts accumulates to 5 (so no
merged group is ever completed), _merge_intervals returns two empty
lists — all observed and expected counts are discarded, because the
trailing-remainder fold only fires when a completed bin exists. -/
theorem c10_no_completed_group_empty (ni_obs ni_exp : List ℝ)
    (hlen : ni_obs.length = ni_exp.length)
    (h : ∀ k : ℕ, (ni_exp.take k).sum < 5) :
    merge_intervals ni_obs ni_exp = ([], []) := by
  have hzip : ∀ k : ℕ, ((ni_obs.zip ni_exp).take k).map Prod.snd = ni_exp.take k := by
    intro k
    rw [List.zip_eq_zipWith, List.take_zipWith, ← List.zip_eq_zipWith,
      List.map_snd_zip]
    simp [List.length_take, hlen]
  unfold merge_intervals
  rw [foldl_merge_no_emit _ 0 0 (fun k => by rw [hzip k]; simpa using h k)]
  simp

/-- C10 witness: the single pair (1, 2) never reaches an expected count
of 5, and the merge discards it entirely. -/
theorem c10_no_completed_group_empty_witness :
    merge_intervals [(1 : ℝ)] [(2 : ℝ)] = ([], []) := by
  refine c10_no_completed_group_empty [(1 : ℝ)] [(2 : ℝ)] rfl ?_
  intro k
  cases k with
  | zero => norm_num
  | succ n => norm_num [List.take_succ_cons]

/-- C1: on the example grid (nr = 20, na = 30, dr = 0.2) with raw
reflectance counts equal to the photon count at bin (1,1) and zero
elsewhere, the scalar total rd is exactly 1 for every positive photon
count: the division by the photon count and the full-field sum into rd
both happen before the geometric rescaling, so the geometric factors
(which contain the unconstrained symbolic quantities pi and sin) never
touch the scalar totals. -/
theorem c1_unit_reflectance_total (np : ℝ) (h : 0 < np) :
    ∃ out, process_output (c1Input np) (c1Raw np) = Except.ok out ∧ out.rd = 1 := by
  refine ⟨processOutputCore (c1Input np) (c1Raw np), rfl, ?_⟩
  have hne : np ≠ 0 := ne_of_gt h
  show (∑ i ∈ Finset.range (c1Input np).nr, ∑ a ∈ Finset.range (c1Input np).na,
      (c1Raw np).rd_ra i a / (c1Input np).np) = 1
  have hx : ∀ i a : ℕ, (c1Raw np).rd_ra i a / (c1Input np).np
      = if i = 0 ∧ a = 0 then (1 : ℝ) else 0 := by
    intro i a
    show (if i = 0 ∧ a = 0 then np else 0) / np = _
    split_ifs with hc
    · exact div_self hne
    · exact zero_div np
  simp only [hx]
  have hinner : ∀ i : ℕ, (∑ a ∈ Finset.range (c1Input np).na,
      if i = 0 ∧ a = 0 then (1 : ℝ) else 0) = if i = 0 then 1 else 0 := by
    intro i
    by_cases hi : i = 0
    · subst hi
      simp [c1Input]
    · simp [hi]
  rw [Finset.sum_congr rfl (fun i _ => hinner i)]
  simp [c1Input]

/-- C1 witness: photon count 1000. -/
theorem c1_unit_reflectance_total_witness :
    (0 : ℝ) < 1000 ∧
      ∃ out, process_output (c1Input 1000) (c1Raw 1000) = Except.ok out ∧ out.rd = 1 :=
  ⟨by norm_num, c1_unit_reflectance_total 1000 (by norm_num)⟩

/-- The square root of 2 is at least 1. -/
theorem one_le_sqrt_two : (1 : ℝ) ≤ Real.sqrt 2 := by
  rw [show (1 : ℝ) = Real.sqrt 1 from Real.sqrt_one.symm]
  exact Real.sqrt_le_sqrt (by norm_num)

/-- On the c4Input grid the post-call reflectance buffer at bin (1,1)
holds the scaled value 1/(pi^2*sqrt 2). -/
theorem c4_rd_scaled :
    (processOutputCore c4Input onesRaw).rd_ra 0 0 = 1 / (Real.pi ^ 2 * Real.sqrt 2) := by
  show onesRaw.rd_ra 0 0 / c4Input.np * scale2_ra c4Input 0 0
      = 1 / (Real.pi ^ 2 * Real.sqrt 2)
  simp only [scale2_ra, scale2Denom, scale1, c4Input, onesRaw]
  rw [show 2 * ((((0 : ℕ) : ℝ) + 1) - 0.5) * (Real.pi / 2) = Real.pi / 2 by
    push_cast; ring]
  rw [Real.sin_pi_div_two]
  rw [show (Real.pi / 2) / 2 = Real.pi / 4 by ring, Real.sin_pi_div_four]
  rw [show ((((0 : ℕ) : ℝ) + 1) - 0.5) * 1 *
      (4 * Real.pi ^ 2 * 1 * (Real.sqrt 2 / 2) * 1) = Real.pi ^ 2 * Real.sqrt 2 by
    push_cast; ring]
  norm_num

/-- On the c4Input grid the post-call transmittance buffer at bin (1,1)
holds the scaled value 1/(pi^2*sqrt 2). -/
theorem c4_tt_scaled :
    (processOutputCore c4Input onesRaw).tt_ra 0 0 = 1 / (Real.pi ^ 2 * Real.sqrt 2) := by
  show onesRaw.tt_ra 0 0 / c4Input.np * scale2_ra c4Input 0 0
      = 1 / (Real.pi ^ 2 * Real.sqrt 2)
  simp only [scale2_ra, scale2Denom, scale1, c4Input, onesRaw]
  rw [show 2 * ((((0 : ℕ) : ℝ) + 1) - 0.5) * (Real.pi / 2) = Real.pi / 2 by
    push_cast; ring]
  rw [Real.sin_pi_div_two]
  rw [show (Real.pi / 2) / 2 = Real.pi / 4 by ring, Real.sin_pi_div_four]
  rw [show ((((0 : ℕ) : ℝ) + 1) - 0.5) * 1 *
      (4 * Real.pi ^ 2 * 1 * (Real.sqrt 2 / 2) * 1) = Real.pi ^ 2 * Real.sqrt 2 by
    push_cast; ring]
  norm_num

/-- On the c4Input grid the post-call absorption buffer at bin (1,1)
holds the scaled value 1/(2*pi*sqrt 2). -/
theorem c4_ab_scaled :
    (processOutputCore c4Input onesRaw).ab_rz 0 0 = 1 / (2 * Real.pi * Real.sqrt 2) := by
  show onesRaw.ab_rz 0 0 / c4Input.np *
      (1 / ((((0 : ℕ) : ℝ) + 1) * scale1_a c4Input * c4Input.dz))
      = 1 / (2 * Real.pi * Real.sqrt 2)
  simp only [scale1_a, c4Input, onesRaw]
  rw [show (Real.pi / 2) / 2 = Real.pi / 4 by ring, Real.sin_pi_div_four]
  rw [show (((0 : ℕ) : ℝ) + 1) * (4 * Real.pi * (Real.sqrt 2 / 2)) * 1
      = 2 * Real.pi * Real.sqrt 2 by push_cast; ring]
  norm_num

/-- The caller's reflectance buffer does not retain its raw value. -/
theorem c4_rd_mutated :
    (processOutputCore c4Input onesRaw).rd_ra 0 0 ≠ onesRaw.rd_ra 0 0 := by
  rw [c4_rd_scaled]
  have hpi := Real.pi_gt_three
  have hs := one_le_sqrt_two
  have hlt : 1 / (Real.pi ^ 2 * Real.sqrt 2) < 1 := by
    rw [div_lt_one (by nlinarith)]
    nlinarith
  show (1 : ℝ) / (Real.pi ^ 2 * Real.sqrt 2) ≠ 1
  exact ne_of_lt hlt

/-- The caller's transmittance buffer does not retain its raw value. -/
theorem c4_tt_mutated :
    (processOutputCore c4Input onesRaw).tt_ra 0 0 ≠ onesRaw.tt_ra 0 0 := by
  rw [c4_tt_scaled]
  have hpi := Real.pi_gt_three
  have hs := one_le_sqrt_two
  have hlt : 1 / (Real.pi ^ 2 * Real.sqrt 2) < 1 := by
    rw [div_lt_one (by nlinarith)]
    nlinarith
  show (1 : ℝ) / (Real.pi ^ 2 * Real.sqrt 2) ≠ 1
  exact ne_of_lt hlt

/-- The caller's absorption buffer does not retain its raw value. -/
theorem c4_ab_mutated :
    (processOutputCore c4Input onesRaw).ab_rz 0 0 ≠ onesRaw.ab_rz 0 0 := by
  rw [c4_ab_scaled]
  have hpi := Real.pi_gt_three
  have hs := one_le_sqrt_two
  have hlt : 1 / (2 * Real.pi * Real.sqrt 2) < 1 := by
    rw [div_lt_one (by nlinarith)]
    nlinarith
  show (1 : ℝ) / (2 * Real.pi * Real.sqrt 2) ≠ 1
  exact ne_of_lt hlt

/-- C4 counterexample: on the concrete c4Input/onesRaw state, the
caller's reflectance array does not hold its original value after
process_output returns — the in-place operators /= and *= overwrote it
with the scaled value. -/
theorem c4_raw_arrays_not_preserved_cex :
    (processOutputCore c4Input onesRaw).rd_ra 0 0 ≠ onesRaw.rd_ra 0 0 :=
  c4_rd_mutated

/-- C4 (amended): the normalizer does mutate the three raw 2-D count
arrays in place — there are inputs for which, after process_output
returns, all three caller-visible buffers hold the scaled values, each
different from the original raw count. -/
theorem c4_normalizer_mutates_in_place :
    ∃ (inp : InputNS) (o : RawOutput),
      (processOutputCore inp o).rd_ra 0 0 ≠ o.rd_ra 0 0 ∧
        (processOutputCore inp o).ab_rz 0 0 ≠ o.ab_rz 0 0 ∧
        (processOutputCore inp o).tt_ra 0 0 ≠ o.tt_ra 0 0 :=
  ⟨c4Input, onesRaw, c4_rd_mutated, c4_ab_mutated, c4_tt_mutated⟩

/-- The Hermite segment evaluated at its left endpoint returns the left
ordinate (local parameter t = 0). -/
theorem hermiteSeg_left (x0 y0 d0 x1 y1 d1 : ℝ) :
    hermiteSeg x0 y0 d0 x1 y1 d1 x0 = y0 := by
  unfold hermiteSeg
  dsimp only
  rw [sub_self, zero_div]
  ring

/-- The Hermite segment evaluated at its right endpoint returns the
right ordinate (local parameter t = 1), when the segment has nonzero
width. -/
theorem hermiteSeg_right (x0 y0 d0 x1 y1 d1 : ℝ) (h : x1 - x0 ≠ 0) :
    hermiteSeg x0 y0 d0 x1 y1 d1 x1 = y1 := by
  unfold hermiteSeg
  dsimp only
  rw [div_self h]
  ring

/-- Piecewise Hermite evaluation at any knot of a strictly increasing
knot list reproduces that knot's ordinate: the interpolant passes
through its knots. -/
theorem evalSegments_at_knot :
    ∀ (ks : List Knot), ks.Pairwise (fun a b => a.x < b.x) →
      ∀ k ∈ ks, evalSegments ks k.x = k.y := by
  intro ks
  induction ks with
  | nil => intro _ k hk; simp at hk
  | cons k0 t ih =>
    intro hp k hk
    cases t with
    | nil =>
      rw [List.mem_singleton.mp hk]
      rfl
    | cons k1 t2 =>
      have hp' := List.pairwise_cons.mp hp
      have h01 : k0.x < k1.x := hp'.1 k1 (by simp)
      rcases List.mem_cons.mp hk with hk0 | hk1
      · rw [hk0]
        simp only [evalSegments]
        rw [if_pos (le_of_lt h01)]
        exact hermiteSeg_left k0.x k0.y k0.d k1.x k1.y k1.d
      · rcases List.mem_cons.mp hk1 with hk1e | hk2
        · rw [hk1e]
          simp only [evalSegments]
          rw [if_pos le_rfl]
          exact hermiteSeg_right k0.x k0.y k0.d k1.x k1.y k1.d
            (sub_ne_zero.mpr (ne_of_gt h01))
        · have hlt : k1.x < k.x := (List.pairwise_cons.mp hp'.2).1 k hk2
          simp only [evalSegments]
          rw [if_neg (not_le.mpr hlt)]
          exact ih hp'.2 k hk1

/-- A query strictly outside the knot span evaluates to NaN (none). -/
theorem pchipNoExtrap_none (ks : List Knot) (q : ℝ) (k0 : Knot)
    (hhead : ks.head? = some k0)
    (hq : q < k0.x ∨ (ks.getLastD k0).x < q) :
    pchipNoExtrap ks q = none := by
  cases ks with
  | nil => simp at hhead
  | cons a t =>
    have ha : a = k0 := by simpa using hhead
    subst ha
    simp only [pchipNoExtrap]
    rw [if_pos hq]

/-- A query inside the knot span evaluates to the Hermite value. -/
theorem pchipNoExtrap_some (ks : List Knot) (q : ℝ) (k0 : Knot)
    (hhead : ks.head? = some k0)
    (h1 : k0.x ≤ q) (h2 : q ≤ (ks.getLastD k0).x) :
    pchipNoExtrap ks q = some (evalSegments ks q) := by
  cases ks with
  | nil => simp at hhead
  | cons a t =>
    have ha : a = k0 := by simpa using hhead
    subst ha
    simp only [pchipNoExtrap]
    rw [if_neg (by push_neg; exact ⟨h1, h2⟩)]

/-- The knot list of get_analysis_data starts at dr/2 and ends at
nr*dr - dr/2. -/
theorem analysisKnots_head_ex (dr : ℝ) (nr : ℕ) (ys : ℕ → ℝ) (h : 1 ≤ nr) :
    ∃ k0, (analysisKnots dr nr ys).head? = some k0 ∧ k0.x = dr / 2 ∧
      ((analysisKnots dr nr ys).getLastD k0).x = (nr : ℝ) * dr - dr / 2 := by
  have hne : nr ≠ 0 := by omega
  refine ⟨⟨(((0 : ℕ) : ℝ) + 1) * dr - dr / 2, ys 0,
      fcDeriv (rindexList dr nr) ((List.range nr).map ys) 0⟩, ?_, ?_, ?_⟩
  · unfold analysisKnots
    rw [List.head?_map, List.head?_range, if_neg hne]
    rfl
  · show (((0 : ℕ) : ℝ) + 1) * dr - dr / 2 = dr / 2
    push_cast
    ring
  · unfold analysisKnots
    rw [List.getLastD_eq_getLast?, List.getLast?_map, List.getLast?_range, if_neg hne]
    show (((nr - 1 : ℕ) : ℝ) + 1) * dr - dr / 2 = (nr : ℝ) * dr - dr / 2
    rw [Nat.cast_sub h]
    push_cast
    ring

/-- C5: every query distance strictly outside the radial profile's
domain [dr/2, nr*dr - dr/2] (the span of the bin midpoints
radialCoordinates i = i*dr - dr/2, i = 1..nr) samples to exactly the
sentinel 0: extrapolate=False yields NaN there and nan_to_num replaces
it by 0, never an extrapolated value. -/
theorem c5_out_of_domain_sentinel (dr : ℝ) (nr : ℕ) (ys : ℕ → ℝ) (q : ℝ)
    (_hdr : 0 < dr) (hnr : 1 ≤ nr)
    (hq : q < dr / 2 ∨ (nr : ℝ) * dr - dr / 2 < q) :
    sampleReflectance dr nr ys q = 0 := by
  obtain ⟨k0, hh, hx0, hxl⟩ := analysisKnots_head_ex dr nr ys hnr
  have hcond : q < k0.x ∨ ((analysisKnots dr nr ys).getLastD k0).x < q := by
    rw [hx0, hxl]; exact hq
  unfold sampleReflectance
  rw [pchipNoExtrap_none _ q k0 hh hcond]
  rfl

/-- C5 witness: on the two-bin grid with dr = 1 the query 5 lies beyond
the last midpoint 3/2 and samples to 0. -/
theorem c5_out_of_domain_sentinel_witness :
    (0 : ℝ) < 1 ∧ 1 ≤ 2 ∧ (((2 : ℕ) : ℝ) * 1 - 1 / 2 < 5) ∧
      sampleReflectance 1 2 (fun _ => 0) 5 = 0 := by
  refine ⟨by norm_num, by norm_num, by norm_num, ?_⟩
  exact c5_out_of_domain_sentinel 1 2 (fun _ => 0) 5 (by norm_num) (by norm_num)
    (Or.inr (by norm_num))

/-- C6: sampling the interpolator at the exact original bin midpoint
radialCoordinates i = i*dr - dr/2 (1-based i between 1 and nr)
reproduces the original profile value of that bin exactly: the
shape-preserving cubic passes through its knots, whatever the
Fritsch-Carlson derivatives are. -/
theorem c6_knot_round_trip (dr : ℝ) (nr : ℕ) (ys : ℕ → ℝ) (i : ℕ)
    (hdr : 0 < dr) (h1 : 1 ≤ i) (h2 : i ≤ nr) :
    sampleReflectance dr nr ys ((i : ℝ) * dr - dr / 2) = ys (i - 1) := by
  have hnr : 1 ≤ nr := le_trans h1 h2
  obtain ⟨k0, hh, hx0, hxl⟩ := analysisKnots_head_ex dr nr ys hnr
  have hi1 : (1 : ℝ) ≤ (i : ℝ) := by exact_mod_cast h1
  have hin : (i : ℝ) ≤ (nr : ℝ) := by exact_mod_cast h2
  have hq1 : k0.x ≤ (i : ℝ) * dr - dr / 2 := by
    rw [hx0]; nlinarith
  have hq2 : (i : ℝ) * dr - dr / 2 ≤ ((analysisKnots dr nr ys).getLastD k0).x := by
    rw [hxl]; nlinarith
  unfold sampleReflectance
  rw [pchipNoExtrap_some _ _ k0 hh hq1 hq2, Option.getD_some]
  have hpw : (analysisKnots dr nr ys).Pairwise (fun a b => a.x < b.x) := by
    unfold analysisKnots
    rw [List.pairwise_map]
    refine List.Pairwise.imp ?_ (List.pairwise_lt_range nr)
    intro a b hab
    dsimp only
    have hcast : (a : ℝ) < (b : ℝ) := by exact_mod_cast hab
    nlinarith
  have hmem : (⟨(((i - 1 : ℕ) : ℝ) + 1) * dr - dr / 2, ys (i - 1),
      fcDeriv (rindexList dr nr) ((List.range nr).map ys) (i - 1)⟩ : Knot)
      ∈ analysisKnots dr nr ys := by
    unfold analysisKnots
    exact List.mem_map_of_mem _ (List.mem_range.mpr (by omega))
  have hknot := evalSegments_at_knot _ hpw _ hmem
  have hxx : (((i - 1 : ℕ) : ℝ) + 1) * dr - dr / 2 = (i : ℝ) * dr - dr / 2 := by
    rw [Nat.cast_sub h1]
    push_cast
    ring
  rw [show ((⟨(((i - 1 : ℕ) : ℝ) + 1) * dr - dr / 2, ys (i - 1),
      fcDeriv (rindexList dr nr) ((List.range nr).map ys) (i - 1)⟩ : Knot)).x
      = (((i - 1 : ℕ) : ℝ) + 1) * dr - dr / 2 from rfl, hxx] at hknot
  exact hknot

/-- C6 witness: on the two-bin grid with dr = 1 and profile values
ys n = n, sampling at the first midpoint 1/2 returns ys 0 = 0. -/
theorem c6_knot_round_trip_witness :
    (0 : ℝ) < 1 ∧
      sampleReflectance 1 2 (fun n => (n : ℝ)) (((1 : ℕ) : ℝ) * 1 - 1 / 2) = 0 := by
  refine ⟨by norm_num, ?_⟩
  have h := c6_knot_round_trip 1 2 (fun n => (n : ℝ)) 1 (by norm_num) le_rfl
    (by norm_num)
  simpa using h
